import Mathlib

/-!
Verification development for the waveguide helper module
(`lessons/lesson_1/meep_helpers.py`).

The module is embedded shallowly: a 2D field array becomes a function
`ℕ → ℕ → ℝ` together with explicit shape parameters `nx ny : ℕ`
(out-of-range indices are junk values, matching the fact that the
Python code never reads out of range on valid shapes); floating-point
arithmetic is idealised as exact real arithmetic; the simulation
vector type `mp.MpVector3` becomes a structure of three reals; the
mutable `self.results` list of the `WaveguideTests` class becomes
explicit state passing of a `WaveguideTests` structure.  Display-only
string formatting (the `expected` / `message` entries of a result
dictionary) is not modelled; the `test`, `measured` and `passed`
entries are.
-/

/-- Model of the simulation library's 3-component vector type
(`mp.MpVector3`), used for cell sizes. -/
structure MpVector3 where
  x : ℝ
  y : ℝ
  z : ℝ

/-- One recorded check result: the result dictionary appended to
`self.results` by every `test_*` method (name, measured scalar and
pass/fail verdict; the display-only string fields are not modelled). -/
structure CheckResult where
  test : String
  measured : ℝ
  passed : Bool

/-- State of a `WaveguideTests` instance: the `tolerance` attribute and
the ordered `results` list. -/
structure WaveguideTests where
  tolerance : ℝ
  results : List CheckResult

/-- `WaveguideTests.__init__` with the default tolerance `0.1`:
`self.tolerance = tolerance; self.results = []`. -/
def waveguide_tests_init : WaveguideTests :=
  ⟨0.1, []⟩

/-- Common tail of every `test_*` method: `self.results.append(result)`
followed by `return passed`.  Returns the verdict together with the
updated instance state. -/
def append_result (s : WaveguideTests) (r : CheckResult) : Bool × WaveguideTests :=
  (r.passed, ⟨s.tolerance, s.results ++ [r]⟩)

/-- Entry `j` of `np.linspace(a, b, n)`: linear interpolation of the
index over `[a, b]` (`a + j*(b-a)/(n-1)`; a single-sample array holds
just `a`). -/
noncomputable def linspace_val (a b : ℝ) (n : ℕ) (j : ℕ) : ℝ :=
  if n ≤ 1 then a else a + (j : ℝ) * (b - a) / ((n : ℝ) - 1)

/-- Entry `j` of `y_positions = np.linspace(-cell_size.y/2, cell_size.y/2, ny)`. -/
noncomputable def y_position (cellY : ℝ) (ny : ℕ) (j : ℕ) : ℝ :=
  linspace_val (-(cellY / 2)) (cellY / 2) ny j

/-- `total_power = np.sum(power)` with `power = np.abs(field_data)**2`. -/
noncomputable def total_power (nx ny : ℕ) (field_data : ℕ → ℕ → ℝ) : ℝ :=
  ∑ i ∈ Finset.range nx, ∑ j ∈ Finset.range ny, |field_data i j| ^ 2

/-- `waveguide_power = np.sum(power[:, mask])` with
`mask = np.abs(y_positions) < waveguide_width/2`: the power summed over
the masked columns only. -/
noncomputable def waveguide_power (nx ny : ℕ) (field_data : ℕ → ℕ → ℝ)
    (waveguide_width cellY : ℝ) : ℝ :=
  ∑ i ∈ Finset.range nx, ∑ j ∈ Finset.range ny,
    if |y_position cellY ny j| < waveguide_width / 2 then |field_data i j| ^ 2 else 0

/-- `gamma = waveguide_power / total_power` in `test_confinement_factor`. -/
noncomputable def confinement_gamma (nx ny : ℕ) (field_data : ℕ → ℕ → ℝ)
    (waveguide_width cellY : ℝ) : ℝ :=
  waveguide_power nx ny field_data waveguide_width cellY / total_power nx ny field_data

/-- The result dictionary built by `test_confinement_factor`
(`'measured': gamma`, `'passed': gamma >= expected`). -/
noncomputable def confinement_result (nx ny : ℕ) (field_data : ℕ → ℕ → ℝ)
    (waveguide_width : ℝ) (cell_size : MpVector3) (expected : ℝ) : CheckResult :=
  ⟨"Confinement Factor", confinement_gamma nx ny field_data waveguide_width cell_size.y,
    decide (confinement_gamma nx ny field_data waveguide_width cell_size.y ≥ expected)⟩

/-- `WaveguideTests.test_confinement_factor`: computes `gamma`, appends
the result and returns the verdict `gamma >= expected`. -/
noncomputable def test_confinement_factor (s : WaveguideTests) (nx ny : ℕ)
    (field_data : ℕ → ℕ → ℝ) (waveguide_width : ℝ) (cell_size : MpVector3)
    (expected : ℝ) : Bool × WaveguideTests :=
  append_result s (confinement_result nx ny field_data waveguide_width cell_size expected)

/-- `test_confinement_factor` at its default argument `expected = 0.8`. -/
noncomputable def test_confinement_factor_default (s : WaveguideTests) (nx ny : ℕ)
    (field_data : ℕ → ℕ → ℝ) (waveguide_width : ℝ) (cell_size : MpVector3) :
    Bool × WaveguideTests :=
  test_confinement_factor s nx ny field_data waveguide_width cell_size 0.8

/-- The measured confinement factor as worded by the specification: the
sum of `|field|^2` over the columns whose interpolated transverse
coordinate lies strictly inside the half-width band, divided by the sum
of `|field|^2` over the whole array.  Stated independently of the code
path (column-major filtered sum over a product grid) to be compared
with `confinement_gamma`. -/
noncomputable def claim_confinement_measured (nx ny : ℕ) (field_data : ℕ → ℕ → ℝ)
    (waveguide_width cellY : ℝ) : ℝ :=
  (∑ j ∈ (Finset.range ny).filter
      (fun j => |y_position cellY ny j| < waveguide_width / 2),
    ∑ i ∈ Finset.range nx, |field_data i j| ^ 2)
  / ∑ p ∈ Finset.range nx ×ˢ Finset.range ny, |field_data p.1 p.2| ^ 2

theorem waveguide_power_eq_filtered (nx ny : ℕ) (field_data : ℕ → ℕ → ℝ)
    (w cellY : ℝ) :
    waveguide_power nx ny field_data w cellY =
      ∑ j ∈ (Finset.range ny).filter (fun j => |y_position cellY ny j| < w / 2),
        ∑ i ∈ Finset.range nx, |field_data i j| ^ 2 := by
  rw [waveguide_power, Finset.sum_comm, Finset.sum_filter]
  refine Finset.sum_congr rfl fun j _ => ?_
  split_ifs with h
  · rfl
  · simp

theorem total_power_eq_product (nx ny : ℕ) (field_data : ℕ → ℕ → ℝ) :
    total_power nx ny field_data =
      ∑ p ∈ Finset.range nx ×ˢ Finset.range ny, |field_data p.1 p.2| ^ 2 := by
  rw [total_power, Finset.sum_product]

/-- Claim C1: for every 2D field array with nonzero total squared
magnitude and positive transverse extent, the confinement check
computes `measured` as the in-band column sum of `|field|^2` (band
membership `|y_j| < width/2`, coordinates linearly interpolated over
`[-extent/2, extent/2]`) divided by the total sum of `|field|^2`, and
returns `True` iff `measured ≥ expected`, with `expected` defaulting
to `0.8`. -/
theorem confinement_factor_correct (s : WaveguideTests) (nx ny : ℕ)
    (field_data : ℕ → ℕ → ℝ) (waveguide_width : ℝ) (cell_size : MpVector3)
    (expected : ℝ) (hT : total_power nx ny field_data ≠ 0) (hY : 0 < cell_size.y) :
    confinement_gamma nx ny field_data waveguide_width cell_size.y =
      claim_confinement_measured nx ny field_data waveguide_width cell_size.y
    ∧ ((test_confinement_factor s nx ny field_data waveguide_width cell_size expected).1
        = true ↔
        claim_confinement_measured nx ny field_data waveguide_width cell_size.y ≥ expected)
    ∧ ((test_confinement_factor_default s nx ny field_data waveguide_width cell_size).1
        = true ↔
        claim_confinement_measured nx ny field_data waveguide_width cell_size.y ≥ 0.8) := by
  have hmeas : confinement_gamma nx ny field_data waveguide_width cell_size.y =
      claim_confinement_measured nx ny field_data waveguide_width cell_size.y := by
    rw [confinement_gamma, claim_confinement_measured,
      waveguide_power_eq_filtered, total_power_eq_product]
  refine ⟨hmeas, ?_, ?_⟩
  · rw [test_confinement_factor, append_result, confinement_result]
    simpa using hmeas ▸ Iff.rfl
  · rw [test_confinement_factor_default, test_confinement_factor, append_result,
      confinement_result]
    simpa using hmeas ▸ Iff.rfl

/-- Witness for C1: a concrete uniform 1×1 field with nonzero total
power inside a cell of positive height. -/
theorem confinement_factor_correct_witness :
    total_power 1 1 (fun _ _ => 1) ≠ 0 ∧ (0 : ℝ) < (MpVector3.mk 16 8 0).y ∧
      (confinement_gamma 1 1 (fun _ _ => 1) 1 (MpVector3.mk 16 8 0).y =
        claim_confinement_measured 1 1 (fun _ _ => 1) 1 (MpVector3.mk 16 8 0).y
      ∧ ((test_confinement_factor waveguide_tests_init 1 1 (fun _ _ => 1) 1
            (MpVector3.mk 16 8 0) 0.5).1 = true ↔
          claim_confinement_measured 1 1 (fun _ _ => 1) 1 (MpVector3.mk 16 8 0).y ≥ 0.5)
      ∧ ((test_confinement_factor_default waveguide_tests_init 1 1 (fun _ _ => 1) 1
            (MpVector3.mk 16 8 0)).1 = true ↔
          claim_confinement_measured 1 1 (fun _ _ => 1) 1 (MpVector3.mk 16 8 0).y ≥ 0.8)) := by
  have hT : total_power 1 1 (fun _ _ => (1 : ℝ)) ≠ 0 := by
    rw [total_power]
    norm_num
  have hY : (0 : ℝ) < (MpVector3.mk 16 8 0).y := by norm_num
  exact ⟨hT, hY,
    confinement_factor_correct waveguide_tests_init 1 1 (fun _ _ => 1) 1
      (MpVector3.mk 16 8 0) 0.5 hT hY⟩

/-- Claim C10: with strictly positive total power the confinement
factor lies in `[0, 1]`; with `expected = 1` the check passes exactly
when all power lies in the band, and with `expected ≤ 0` it always
passes. -/
theorem confinement_gamma_bounds (s : WaveguideTests) (nx ny : ℕ)
    (field_data : ℕ → ℕ → ℝ) (waveguide_width : ℝ) (cell_size : MpVector3)
    (hT : 0 < total_power nx ny field_data) :
    0 ≤ confinement_gamma nx ny field_data waveguide_width cell_size.y
    ∧ confinement_gamma nx ny field_data waveguide_width cell_size.y ≤ 1
    ∧ ((test_confinement_factor s nx ny field_data waveguide_width cell_size 1).1 = true ↔
        waveguide_power nx ny field_data waveguide_width cell_size.y =
          total_power nx ny field_data)
    ∧ ∀ expected : ℝ, expected ≤ 0 →
        (test_confinement_factor s nx ny field_data waveguide_width cell_size expected).1
          = true := by
  have hwp_le : waveguide_power nx ny field_data waveguide_width cell_size.y ≤
      total_power nx ny field_data := by
    refine Finset.sum_le_sum fun i _ => Finset.sum_le_sum fun j _ => ?_
    split_ifs
    · exact le_refl _
    · positivity
  have hwp_nonneg : 0 ≤ waveguide_power nx ny field_data waveguide_width cell_size.y := by
    refine Finset.sum_nonneg fun i _ => Finset.sum_nonneg fun j _ => ?_
    split_ifs
    · positivity
    · exact le_refl _
  have h0 : 0 ≤ confinement_gamma nx ny field_data waveguide_width cell_size.y :=
    div_nonneg hwp_nonneg hT.le
  have h1 : confinement_gamma nx ny field_data waveguide_width cell_size.y ≤ 1 :=
    (div_le_one hT).mpr hwp_le
  refine ⟨h0, h1, ?_, ?_⟩
  · rw [test_confinement_factor, append_result, confinement_result]
    simp only [decide_eq_true_iff]
    constructor
    · intro hge
      have : (1 : ℝ) ≤ confinement_gamma nx ny field_data waveguide_width cell_size.y := hge
      have hg1 : confinement_gamma nx ny field_data waveguide_width cell_size.y = 1 :=
        le_antisymm h1 this
      rw [confinement_gamma, div_eq_one_iff_eq hT.ne'] at hg1
      exact hg1
    · intro heq
      rw [confinement_gamma, heq, div_self hT.ne']
  · intro expected hexp
    rw [test_confinement_factor, append_result, confinement_result]
    simp only [decide_eq_true_iff]
    exact le_trans hexp h0

/-- Witness for C10: a concrete 1×1 field with positive total power. -/
theorem confinement_gamma_bounds_witness :
    0 < total_power 1 1 (fun _ _ => 1) ∧
      (0 ≤ confinement_gamma 1 1 (fun _ _ => 1) 1 (MpVector3.mk 16 8 0).y
      ∧ confinement_gamma 1 1 (fun _ _ => 1) 1 (MpVector3.mk 16 8 0).y ≤ 1
      ∧ ((test_confinement_factor waveguide_tests_init 1 1 (fun _ _ => 1) 1
            (MpVector3.mk 16 8 0) 1).1 = true ↔
          waveguide_power 1 1 (fun _ _ => 1) 1 (MpVector3.mk 16 8 0).y =
            total_power 1 1 (fun _ _ => 1))
      ∧ ∀ expected : ℝ, expected ≤ 0 →
          (test_confinement_factor waveguide_tests_init 1 1 (fun _ _ => 1) 1
            (MpVector3.mk 16 8 0) expected).1 = true) := by
  have hT : 0 < total_power 1 1 (fun _ _ => (1 : ℝ)) := by
    rw [total_power]
    norm_num
  exact ⟨hT, confinement_gamma_bounds waveguide_tests_init 1 1 (fun _ _ => 1) 1
    (MpVector3.mk 16 8 0) hT⟩

/-- `V = (np.pi * width / wavelength) * np.sqrt(n_core**2 - n_cladding**2)`
computed by `test_single_mode_condition`. -/
noncomputable def v_number (width wavelength n_core n_cladding : ℝ) : ℝ :=
  (Real.pi * width / wavelength) * Real.sqrt (n_core ^ 2 - n_cladding ^ 2)

/-- The result dictionary built by `test_single_mode_condition`
(`'measured': V`, `'passed': V < cutoff` with `cutoff = np.pi / 2`). -/
noncomputable def single_mode_result (width wavelength n_core n_cladding : ℝ) :
    CheckResult :=
  ⟨"Single-Mode Condition", v_number width wavelength n_core n_cladding,
    decide (v_number width wavelength n_core n_cladding < Real.pi / 2)⟩

/-- `WaveguideTests.test_single_mode_condition`: computes `V`, appends
the result and returns the verdict `V < np.pi / 2`. -/
noncomputable def test_single_mode_condition (s : WaveguideTests)
    (width wavelength n_core n_cladding : ℝ) : Bool × WaveguideTests :=
  append_result s (single_mode_result width wavelength n_core n_cladding)

/-- `test_single_mode_condition` at its default argument
`n_cladding = 1.0`. -/
noncomputable def test_single_mode_condition_default (s : WaveguideTests)
    (width wavelength n_core : ℝ) : Bool × WaveguideTests :=
  test_single_mode_condition s width wavelength n_core 1

/-- Claim C4: for every width, wavelength, core and cladding index with
`n_cladding^2 ≤ n_core^2`, the single-mode check computes
`V = (pi*width/wavelength)*sqrt(n_core^2 - n_cladding^2)` and returns
`True` iff `V < pi/2`; `n_cladding` defaults to `1.0`. -/
theorem single_mode_condition_correct (s : WaveguideTests)
    (width wavelength n_core n_cladding : ℝ)
    (h : n_cladding ^ 2 ≤ n_core ^ 2) :
    v_number width wavelength n_core n_cladding =
      (Real.pi * width / wavelength) * Real.sqrt (n_core ^ 2 - n_cladding ^ 2)
    ∧ ((test_single_mode_condition s width wavelength n_core n_cladding).1 = true ↔
        (Real.pi * width / wavelength) * Real.sqrt (n_core ^ 2 - n_cladding ^ 2) <
          Real.pi / 2)
    ∧ ((test_single_mode_condition_default s width wavelength n_core).1 = true ↔
        (Real.pi * width / wavelength) * Real.sqrt (n_core ^ 2 - 1 ^ 2) <
          Real.pi / 2) := by
  refine ⟨rfl, ?_, ?_⟩
  · rw [test_single_mode_condition, append_result, single_mode_result]
    simp [v_number, decide_eq_true_iff]
  · rw [test_single_mode_condition_default, test_single_mode_condition, append_result,
      single_mode_result]
    simp [v_number, decide_eq_true_iff]

/-- Witness for C4: the concrete inputs width 2, wavelength 1.55,
core index 3.46, cladding index 1. -/
theorem single_mode_condition_correct_witness :
    (1 : ℝ) ^ 2 ≤ (3.46 : ℝ) ^ 2 ∧
      (v_number 2 1.55 3.46 1 =
        (Real.pi * 2 / 1.55) * Real.sqrt ((3.46 : ℝ) ^ 2 - (1 : ℝ) ^ 2)
      ∧ ((test_single_mode_condition waveguide_tests_init 2 1.55 3.46 1).1 = true ↔
          (Real.pi * 2 / 1.55) * Real.sqrt ((3.46 : ℝ) ^ 2 - (1 : ℝ) ^ 2) <
            Real.pi / 2)
      ∧ ((test_single_mode_condition_default waveguide_tests_init 2 1.55 3.46).1
            = true ↔
          (Real.pi * 2 / 1.55) * Real.sqrt ((3.46 : ℝ) ^ 2 - (1 : ℝ) ^ 2) <
            Real.pi / 2)) := by
  have h : (1 : ℝ) ^ 2 ≤ (3.46 : ℝ) ^ 2 := by norm_num
  exact ⟨h, single_mode_condition_correct waveguide_tests_init 2 1.55 3.46 1 h⟩

/-- Claim C5: for fixed positive wavelength and cladding index with
`0 ≤ n_cladding < n_core`, the measured V-number grows strictly with
the width, and for fixed positive width it grows strictly with the
core index. -/
theorem v_number_strict_mono (wavelength n_cladding : ℝ)
    (hl : 0 < wavelength) (hcl : 0 ≤ n_cladding) :
    (∀ n_core w₁ w₂ : ℝ, n_cladding < n_core → w₁ < w₂ →
      v_number w₁ wavelength n_core n_cladding <
        v_number w₂ wavelength n_core n_cladding)
    ∧ ∀ width n₁ n₂ : ℝ, 0 < width → n_cladding < n₁ → n₁ < n₂ →
      v_number width wavelength n₁ n_cladding <
        v_number width wavelength n₂ n_cladding := by
  constructor
  · intro n_core w₁ w₂ hnc hw
    have hs : 0 < Real.sqrt (n_core ^ 2 - n_cladding ^ 2) :=
      Real.sqrt_pos.mpr (by nlinarith)
    rw [v_number, v_number]
    have hcoef : Real.pi * w₁ / wavelength < Real.pi * w₂ / wavelength :=
      (div_lt_div_iff_of_pos_right hl).mpr (mul_lt_mul_of_pos_left hw Real.pi_pos)
    exact mul_lt_mul_of_pos_right hcoef hs
  · intro width n₁ n₂ hw h₁ h₂
    have hcoef : 0 < Real.pi * width / wavelength := by positivity
    have hs : Real.sqrt (n₁ ^ 2 - n_cladding ^ 2) <
        Real.sqrt (n₂ ^ 2 - n_cladding ^ 2) :=
      Real.sqrt_lt_sqrt (by nlinarith) (by nlinarith)
    exact mul_lt_mul_of_pos_left hs hcoef

/-- Witness for C5: wavelength 6.67 and cladding index 1. -/
theorem v_number_strict_mono_witness :
    (0 : ℝ) < 6.67 ∧ (0 : ℝ) ≤ 1 ∧
      ((∀ n_core w₁ w₂ : ℝ, (1 : ℝ) < n_core → w₁ < w₂ →
        v_number w₁ 6.67 n_core 1 < v_number w₂ 6.67 n_core 1)
      ∧ ∀ width n₁ n₂ : ℝ, 0 < width → (1 : ℝ) < n₁ → n₁ < n₂ →
        v_number width 6.67 n₁ 1 < v_number width 6.67 n₂ 1) := by
  have hl : (0 : ℝ) < 6.67 := by norm_num
  have hcl : (0 : ℝ) ≤ 1 := by norm_num
  exact ⟨hl, hcl, v_number_strict_mono 6.67 1 hl hcl⟩

theorem v_number_boundary_bounds :
    1.56 < v_number 1 6.67 3.46 1
    ∧ v_number 1 6.67 3.46 1 < 1.561
    ∧ v_number 1 6.67 3.46 1 < Real.pi / 2 := by
  have harg : ((3.46 : ℝ) ^ 2 - 1 ^ 2) = 10.9716 := by norm_num
  have hs_lo : (3.3123 : ℝ) < Real.sqrt 10.9716 := by
    rw [Real.lt_sqrt (by norm_num)]
    norm_num
  have hs_hi : Real.sqrt 10.9716 < 3.3124 := by
    rw [Real.sqrt_lt' (by norm_num)]
    norm_num
  have hs_nonneg : (0 : ℝ) ≤ Real.sqrt 10.9716 := Real.sqrt_nonneg _
  have hπlo := Real.pi_gt_d6
  have hπhi := Real.pi_lt_d6
  have hπpos := Real.pi_pos
  rw [v_number, harg]
  have hrw : Real.pi * 1 / 6.67 * Real.sqrt 10.9716 =
      Real.pi * Real.sqrt 10.9716 / 6.67 := by ring
  have h667 : (0 : ℝ) < 6.67 := by norm_num
  rw [hrw]
  refine ⟨?_, ?_, ?_⟩
  · rw [lt_div_iff₀ h667]
    have key : (3.141592 : ℝ) * 3.3123 < Real.pi * Real.sqrt 10.9716 :=
      mul_lt_mul'' hπlo hs_lo (by norm_num) (by norm_num)
    exact lt_trans (by norm_num) key
  · rw [div_lt_iff₀ h667]
    have key : Real.pi * Real.sqrt 10.9716 < 3.141593 * 3.3124 :=
      mul_lt_mul'' hπhi hs_hi hπpos.le hs_nonneg
    exact lt_trans key (by norm_num)
  · rw [div_lt_iff₀ h667]
    have hs2 : Real.sqrt 10.9716 < 3.335 := lt_trans hs_hi (by norm_num)
    have key : Real.pi * Real.sqrt 10.9716 < Real.pi * 3.335 :=
      mul_lt_mul_of_pos_left hs2 hπpos
    have heq : Real.pi / 2 * 6.67 = Real.pi * 3.335 := by ring
    rw [heq]
    exact key

/-- Counterexample for C6: at width 1.0, wavelength 6.67, core index
3.46 and cladding index 1.0 the single-mode check returns `True`
(single-mode), not `False` as claimed: the computed `V` is below the
cutoff `pi/2`. -/
theorem single_mode_boundary_counterexample :
    (test_single_mode_condition waveguide_tests_init 1 6.67 3.46 1).1 = true := by
  rw [test_single_mode_condition, append_result, single_mode_result]
  simp only [decide_eq_true_iff]
  exact v_number_boundary_bounds.2.2

/-- Claim C6 (amended): for width 1.0, wavelength 6.67, core index
3.46, cladding index 1.0 the single-mode check computes `V ≈ 1.560`
(strictly between 1.56 and 1.561), which is below the cutoff `pi/2`
(≈ 1.571), so the check returns `True` (single-mode). -/
theorem single_mode_boundary_amended :
    1.56 < v_number 1 6.67 3.46 1
    ∧ v_number 1 6.67 3.46 1 < 1.561
    ∧ v_number 1 6.67 3.46 1 < Real.pi / 2
    ∧ (test_single_mode_condition waveguide_tests_init 1 6.67 3.46 1).1 = true := by
  obtain ⟨h1, h2, h3⟩ := v_number_boundary_bounds
  refine ⟨h1, h2, h3, ?_⟩
  rw [test_single_mode_condition, append_result, single_mode_result]
  simp only [decide_eq_true_iff]
  exact h3

/-- `max_field = np.max(np.abs(field_data))`: the maximum of the
pointwise magnitudes over the whole (nonempty) array; junk value 0 on
an empty shape, where `np.max` would fail. -/
noncomputable def max_abs_field (nx ny : ℕ) (field_data : ℕ → ℕ → ℝ) : ℝ :=
  if h : (Finset.range nx ×ˢ Finset.range ny).Nonempty then
    (Finset.range nx ×ˢ Finset.range ny).sup' h fun p => |field_data p.1 p.2|
  else 0

/-- The result dictionary built by `test_field_amplitude`
(`'measured': max_field`, `'passed': min_val < max_field < max_val`). -/
noncomputable def amplitude_result (nx ny : ℕ) (field_data : ℕ → ℕ → ℝ)
    (min_val max_val : ℝ) : CheckResult :=
  ⟨"Field Amplitude", max_abs_field nx ny field_data,
    decide (min_val < max_abs_field nx ny field_data ∧
      max_abs_field nx ny field_data < max_val)⟩

/-- `WaveguideTests.test_field_amplitude`: computes `max_field`,
appends the result and returns the verdict
`min_val < max_field < max_val` (a chained strict comparison). -/
noncomputable def test_field_amplitude (s : WaveguideTests) (nx ny : ℕ)
    (field_data : ℕ → ℕ → ℝ) (min_val max_val : ℝ) : Bool × WaveguideTests :=
  append_result s (amplitude_result nx ny field_data min_val max_val)

/-- `test_field_amplitude` at its default arguments `min_val = 1e-6`,
`max_val = 1e3`. -/
noncomputable def test_field_amplitude_default (s : WaveguideTests) (nx ny : ℕ)
    (field_data : ℕ → ℕ → ℝ) : Bool × WaveguideTests :=
  test_field_amplitude s nx ny field_data 1e-6 1e3

/-- Claim C7: the field-amplitude check returns `True` iff
`min_val < max(|field|) < max_val` with both inequalities strict
(defaults `1e-6`, `1e3`); an all-zero field fails, a field holding a
sample of magnitude `1e10` fails the defaults, and a field of maximum
magnitude `1.0` passes the defaults. -/
theorem field_amplitude_correct (s : WaveguideTests) (nx ny : ℕ)
    (field_data : ℕ → ℕ → ℝ) (hx : 0 < nx) (hy : 0 < ny) :
    (∀ min_val max_val : ℝ,
      ((test_field_amplitude s nx ny field_data min_val max_val).1 = true ↔
        min_val < max_abs_field nx ny field_data ∧
          max_abs_field nx ny field_data < max_val))
    ∧ ((∀ i j, field_data i j = 0) →
        (test_field_amplitude_default s nx ny field_data).1 = false)
    ∧ (∀ i j, i < nx → j < ny → |field_data i j| = 1e10 →
        (test_field_amplitude_default s nx ny field_data).1 = false)
    ∧ (max_abs_field nx ny field_data = 1 →
        (test_field_amplitude_default s nx ny field_data).1 = true) := by
  have hne : (Finset.range nx ×ˢ Finset.range ny).Nonempty :=
    ⟨(0, 0), by simp [Finset.mem_product, hx, hy]⟩
  have hiff : ∀ min_val max_val : ℝ,
      ((test_field_amplitude s nx ny field_data min_val max_val).1 = true ↔
        min_val < max_abs_field nx ny field_data ∧
          max_abs_field nx ny field_data < max_val) := by
    intro min_val max_val
    rw [test_field_amplitude, append_result, amplitude_result]
    exact decide_eq_true_iff
  refine ⟨hiff, ?_, ?_, ?_⟩
  · intro hzero
    have hmax : max_abs_field nx ny field_data = 0 := by
      rw [max_abs_field, dif_pos hne]
      have : ∀ p ∈ Finset.range nx ×ˢ Finset.range ny,
          |field_data p.1 p.2| = (fun _ : ℕ × ℕ => (0 : ℝ)) p := by
        intro p _
        simp [hzero p.1 p.2]
      rw [Finset.sup'_congr hne rfl this, Finset.sup'_const]
    rw [test_field_amplitude_default]
    rw [Bool.eq_false_iff]
    intro htrue
    have := (hiff 1e-6 1e3).mp htrue
    rw [hmax] at this
    have h1 := this.1
    norm_num at h1
  · intro i j hi hj habs
    have hge : (1e10 : ℝ) ≤ max_abs_field nx ny field_data := by
      rw [max_abs_field, dif_pos hne]
      have hmem : (i, j) ∈ Finset.range nx ×ˢ Finset.range ny := by
        simp [Finset.mem_product, hi, hj]
      calc (1e10 : ℝ) = |field_data i j| := habs.symm
        _ ≤ _ := Finset.le_sup' (fun p : ℕ × ℕ => |field_data p.1 p.2|) hmem
    rw [test_field_amplitude_default, Bool.eq_false_iff]
    intro htrue
    have := (hiff 1e-6 1e3).mp htrue
    have h2 := this.2
    norm_num at hge
    norm_num at h2
    linarith
  · intro hone
    rw [test_field_amplitude_default]
    rw [hiff 1e-6 1e3, hone]
    norm_num

/-- Witness for C7: the concrete 1×1 all-zero field. -/
theorem field_amplitude_correct_witness :
    0 < 1 ∧ 0 < 1 ∧
      ((∀ min_val max_val : ℝ,
        ((test_field_amplitude waveguide_tests_init 1 1 (fun _ _ => 0)
            min_val max_val).1 = true ↔
          min_val < max_abs_field 1 1 (fun _ _ => 0) ∧
            max_abs_field 1 1 (fun _ _ => 0) < max_val))
      ∧ ((∀ i j : ℕ, (0 : ℝ) = 0) →
          (test_field_amplitude_default waveguide_tests_init 1 1 (fun _ _ => 0)).1
            = false)
      ∧ (∀ i j, i < 1 → j < 1 → |(0 : ℝ)| = 1e10 →
          (test_field_amplitude_default waveguide_tests_init 1 1 (fun _ _ => 0)).1
            = false)
      ∧ (max_abs_field 1 1 (fun _ _ => 0) = 1 →
          (test_field_amplitude_default waveguide_tests_init 1 1 (fun _ _ => 0)).1
            = true)) :=
  ⟨Nat.one_pos, Nat.one_pos,
    field_amplitude_correct waveguide_tests_init 1 1 (fun _ _ => 0)
      Nat.one_pos Nat.one_pos⟩

theorem indexOf_range_eq : ∀ (n s a : ℕ), a ∈ List.range' s n →
    (List.range' s n).indexOf a = a - s := by
  intro n
  induction n with
  | zero =>
    intro s a ha
    simp at ha
  | succ k ih =>
    intro s a ha
    rw [List.range'_succ]
    by_cases has : a = s
    · subst has
      simp [List.indexOf_cons_self]
    · have hbounds := List.mem_range'_1.mp ha
      have hmem : a ∈ List.range' (s + 1) k :=
        List.mem_range'_1.mpr ⟨by omega, by omega⟩
      rw [List.indexOf_cons_ne _ fun h => has h.symm, ih (s + 1) a hmem]
      omega

theorem argmax_range_spec (g : ℕ → ℝ) (n : ℕ) (hn : 0 < n) :
    ∃ m, (List.range n).argmax g = some m ∧ m < n ∧
      (∀ a, a < n → g a ≤ g m) ∧ ∀ a, a < m → g a < g m := by
  cases hm : (List.range n).argmax g with
  | none =>
    rw [List.argmax_eq_none] at hm
    have : n = 0 := by simpa [List.range_eq_nil] using hm
    omega
  | some m =>
    have hmem : m ∈ (List.range n).argmax g := Option.mem_def.mpr hm
    have hm_mem : m ∈ List.range n := List.argmax_mem hmem
    have hmn : m < n := List.mem_range.mp hm_mem
    refine ⟨m, rfl, hmn, ?_, ?_⟩
    · intro a ha
      exact List.le_of_mem_argmax (List.mem_range.mpr ha) hmem
    · intro a ham
      by_contra hng
      push_neg at hng
      have haN : a ∈ List.range n := List.mem_range.mpr (lt_trans ham hmn)
      have hidx := List.index_of_argmax hmem haN hng
      rw [List.range_eq_range'] at hidx hm_mem haN
      rw [indexOf_range_eq n 0 m hm_mem, indexOf_range_eq n 0 a haN] at hidx
      omega

theorem argmin_range_spec (g : ℕ → ℝ) (n : ℕ) (hn : 0 < n) :
    ∃ m, (List.range n).argmin g = some m ∧ m < n ∧ ∀ a, a < n → g m ≤ g a := by
  cases hm : (List.range n).argmin g with
  | none =>
    rw [List.argmin_eq_none] at hm
    have : n = 0 := by simpa [List.range_eq_nil] using hm
    omega
  | some m =>
    have hmem : m ∈ (List.range n).argmin g := Option.mem_def.mpr hm
    have hm_mem : m ∈ List.range n := List.argmin_mem hmem
    refine ⟨m, rfl, List.mem_range.mp hm_mem, fun a ha =>
      List.le_of_mem_argmin (List.mem_range.mpr ha) hmem⟩

/-- Forward discrete Fourier transform bin `k` of the first `n` samples
of `x`, with numpy's `np.fft.fft` convention
`A_k = sum_j x_j * exp(-2*pi*I*j*k/n)` and no normalisation. -/
noncomputable def dft (n : ℕ) (x : ℕ → ℂ) (k : ℕ) : ℂ :=
  ∑ j ∈ Finset.range n, x j *
    Complex.exp (-2 * (Real.pi : ℂ) * Complex.I * (j : ℂ) * (k : ℂ) / (n : ℂ))

/-- Entry `k` of `np.fft.fftfreq(n, d)`: `k/(d*n)` for
`k = 0, ..., (n-1)//2` and `(k-n)/(d*n)` for the remaining (negative
frequency) bins. -/
noncomputable def fftfreq_val (n : ℕ) (d : ℝ) (k : ℕ) : ℝ :=
  (if k ≤ (n - 1) / 2 then (k : ℝ) else (k : ℝ) - (n : ℝ)) / (d * (n : ℝ))

/-- `WaveguideAnalysis.calculate_effective_index`: slice the field
along x at the midpoint of the y axis, Fourier-transform it, take the
first index of maximum magnitude among the non-DC bins
(`np.argmax(np.abs(fft[1:])) + 1`), form
`k_x = 2*pi*freqs[dominant_idx]` and `k_0 = 2*pi/wavelength_vacuum`,
and return `abs(k_x / k_0)`. -/
noncomputable def calculate_effective_index (nx ny : ℕ) (field_data : ℕ → ℕ → ℝ)
    (cell_size : MpVector3) (wavelength_vacuum : ℝ) : ℝ :=
  let mid_y := ny / 2
  let field_x : ℕ → ℝ := fun i => field_data i mid_y
  let fft : ℕ → ℂ := fun k => dft nx (fun j => (field_x j : ℂ)) k
  let dominant_idx :=
    (((List.range (nx - 1)).argmax fun k => Complex.abs (fft (k + 1))).getD 0) + 1
  let k_x := 2 * Real.pi * fftfreq_val nx (cell_size.x / (nx : ℝ)) dominant_idx
  let k_0 := 2 * Real.pi / wavelength_vacuum
  |k_x / k_0|

/-- Claim C2: for a field with at least two samples along the primary
axis, the effective-index routine slices at the midpoint of the
secondary axis, takes the DFT, picks the dominant bin among indices
`1..n-1` (maximum magnitude, lowest index on exact ties), and returns
`abs(k_x / k_0)` for `k_x = 2*pi*freq` of that bin and
`k_0 = 2*pi/wavelength_vacuum`. -/
theorem effective_index_correct (nx ny : ℕ) (field_data : ℕ → ℕ → ℝ)
    (cell_size : MpVector3) (wavelength_vacuum : ℝ)
    (hx : 2 ≤ nx) (hy : 0 < ny) :
    ∃ d : ℕ, 1 ≤ d ∧ d < nx ∧
      (∀ m, 1 ≤ m → m < nx →
        Complex.abs (dft nx (fun j => ((field_data j (ny / 2) : ℝ) : ℂ)) m) ≤
          Complex.abs (dft nx (fun j => ((field_data j (ny / 2) : ℝ) : ℂ)) d)) ∧
      (∀ m, 1 ≤ m → m < d →
        Complex.abs (dft nx (fun j => ((field_data j (ny / 2) : ℝ) : ℂ)) m) <
          Complex.abs (dft nx (fun j => ((field_data j (ny / 2) : ℝ) : ℂ)) d)) ∧
      calculate_effective_index nx ny field_data cell_size wavelength_vacuum =
        |2 * Real.pi * fftfreq_val nx (cell_size.x / (nx : ℝ)) d /
          (2 * Real.pi / wavelength_vacuum)| := by
  obtain ⟨m, hm, hmn, hmax, hfirst⟩ :=
    argmax_range_spec
      (fun k => Complex.abs
        (dft nx (fun j => ((field_data j (ny / 2) : ℝ) : ℂ)) (k + 1)))
      (nx - 1) (by omega)
  refine ⟨m + 1, by omega, by omega, ?_, ?_, ?_⟩
  · intro k h1 h2
    obtain ⟨a, rfl⟩ : ∃ a, k = a + 1 := ⟨k - 1, by omega⟩
    exact hmax a (by omega)
  · intro k h1 h2
    obtain ⟨a, rfl⟩ : ∃ a, k = a + 1 := ⟨k - 1, by omega⟩
    exact hfirst a (by omega)
  · simp only [calculate_effective_index, hm, Option.getD_some]

/-- Witness for C2: a concrete 2×1 field. -/
theorem effective_index_correct_witness :
    2 ≤ 2 ∧ 0 < 1 ∧
      (∃ d : ℕ, 1 ≤ d ∧ d < 2 ∧
        (∀ m, 1 ≤ m → m < 2 →
          Complex.abs (dft 2 (fun j => (((if j = 0 then (1 : ℝ) else 0) : ℝ) : ℂ)) m) ≤
            Complex.abs (dft 2 (fun j => (((if j = 0 then (1 : ℝ) else 0) : ℝ) : ℂ)) d)) ∧
        (∀ m, 1 ≤ m → m < d →
          Complex.abs (dft 2 (fun j => (((if j = 0 then (1 : ℝ) else 0) : ℝ) : ℂ)) m) <
            Complex.abs (dft 2 (fun j => (((if j = 0 then (1 : ℝ) else 0) : ℝ) : ℂ)) d)) ∧
        calculate_effective_index 2 1 (fun i _ => if i = 0 then (1 : ℝ) else 0)
            (MpVector3.mk 16 8 0) 6.67 =
          |2 * Real.pi * fftfreq_val 2 ((MpVector3.mk 16 8 0).x / ((2 : ℕ) : ℝ)) d /
            (2 * Real.pi / 6.67)|) :=
  ⟨le_refl 2, Nat.one_pos,
    effective_index_correct 2 1 (fun i _ => if i = 0 then (1 : ℝ) else 0)
      (MpVector3.mk 16 8 0) 6.67 (le_refl 2) Nat.one_pos⟩

/-- `WaveguideAnalysis.measure_decay_length`: take the magnitude
profile of the row at the midpoint of the x axis, locate the grid
index whose y coordinate is closest to `+width/2`
(`np.argmin(np.abs(y - waveguide_width/2))`), set
`target = edge_field / np.e`, search the subarray from the edge index
to the end for the magnitude closest to `target`
(`edge_idx + np.argmin(np.abs(cross_section[edge_idx:] - target))`),
and return `abs(y[outside_idx] - y[edge_idx])`. -/
noncomputable def measure_decay_length (nx ny : ℕ) (field_data : ℕ → ℕ → ℝ)
    (waveguide_width : ℝ) (cell_size : MpVector3) : ℝ :=
  let mid_x := nx / 2
  let cross_section : ℕ → ℝ := fun j => |field_data mid_x j|
  let y : ℕ → ℝ := fun j => y_position cell_size.y ny j
  let edge_idx :=
    (((List.range ny).argmin fun j => |y j - waveguide_width / 2|).getD 0)
  let edge_field := cross_section edge_idx
  let target := edge_field / Real.exp 1
  let outside_idx := edge_idx +
    (((List.range (ny - edge_idx)).argmin fun j =>
        |cross_section (edge_idx + j) - target|).getD 0)
  |y outside_idx - y edge_idx|

/-- Claim C3: the decay-length routine finds the edge index (the grid
index whose interpolated y coordinate is closest to `+width/2`), sets
the target to the magnitude there divided by `e`, searches only the
subarray from the edge index to the end for the magnitude closest to
the target, and returns the absolute physical-coordinate distance
between that index and the edge index, a nonnegative value. -/
theorem decay_length_correct (nx ny : ℕ) (field_data : ℕ → ℕ → ℝ)
    (waveguide_width : ℝ) (cell_size : MpVector3)
    (hy : 0 < ny) (hcy : 0 < cell_size.y) :
    ∃ e o : ℕ, e < ny ∧ e ≤ o ∧ o < ny ∧
      (∀ j, j < ny →
        |y_position cell_size.y ny e - waveguide_width / 2| ≤
          |y_position cell_size.y ny j - waveguide_width / 2|) ∧
      (∀ j, e ≤ j → j < ny →
        abs (|field_data (nx / 2) o| - |field_data (nx / 2) e| / Real.exp 1) ≤
          abs (|field_data (nx / 2) j| - |field_data (nx / 2) e| / Real.exp 1)) ∧
      measure_decay_length nx ny field_data waveguide_width cell_size =
        |y_position cell_size.y ny o - y_position cell_size.y ny e| ∧
      0 ≤ measure_decay_length nx ny field_data waveguide_width cell_size := by
  obtain ⟨e, he_eq, he_lt, he_min⟩ :=
    argmin_range_spec
      (fun j => |y_position cell_size.y ny j - waveguide_width / 2|) ny hy
  obtain ⟨o1, ho_eq, ho_lt, ho_min⟩ :=
    argmin_range_spec
      (fun j => |(|field_data (nx / 2) (e + j)|) -
        (|field_data (nx / 2) e|) / Real.exp 1|) (ny - e) (by omega)
  refine ⟨e, e + o1, he_lt, Nat.le_add_right e o1, by omega, he_min, ?_, ?_, ?_⟩
  · intro j hej hjny
    have h1 := ho_min (j - e) (by omega)
    have h2 : e + (j - e) = j := by omega
    rw [h2] at h1
    exact h1
  · simp only [measure_decay_length, he_eq, ho_eq, Option.getD_some]
  · have heq : measure_decay_length nx ny field_data waveguide_width cell_size =
        |y_position cell_size.y ny (e + o1) - y_position cell_size.y ny e| := by
      simp only [measure_decay_length, he_eq, ho_eq, Option.getD_some]
    rw [heq]
    exact abs_nonneg _

/-- Witness for C3: a concrete 1×2 field in a cell of height 8. -/
theorem decay_length_correct_witness :
    0 < 2 ∧ (0 : ℝ) < (MpVector3.mk 16 8 0).y ∧
      (∃ e o : ℕ, e < 2 ∧ e ≤ o ∧ o < 2 ∧
        (∀ j, j < 2 →
          |y_position (MpVector3.mk 16 8 0).y 2 e - (1 : ℝ) / 2| ≤
            |y_position (MpVector3.mk 16 8 0).y 2 j - (1 : ℝ) / 2|) ∧
        (∀ j, e ≤ j → j < 2 →
          abs (|((fun _ _ => (1 : ℝ)) (1 / 2 : ℕ) o)| -
              |((fun _ _ => (1 : ℝ)) (1 / 2 : ℕ) e)| / Real.exp 1) ≤
            abs (|((fun _ _ => (1 : ℝ)) (1 / 2 : ℕ) j)| -
              |((fun _ _ => (1 : ℝ)) (1 / 2 : ℕ) e)| / Real.exp 1)) ∧
        measure_decay_length 1 2 (fun _ _ => (1 : ℝ)) 1 (MpVector3.mk 16 8 0) =
          |y_position (MpVector3.mk 16 8 0).y 2 o -
            y_position (MpVector3.mk 16 8 0).y 2 e| ∧
        0 ≤ measure_decay_length 1 2 (fun _ _ => (1 : ℝ)) 1 (MpVector3.mk 16 8 0)) :=
  ⟨Nat.zero_lt_two, by norm_num,
    decay_length_correct 1 2 (fun _ _ => 1) 1 (MpVector3.mk 16 8 0)
      Nat.zero_lt_two (by norm_num)⟩

/-- The result dictionary built by `test_steady_state`
(`'measured': cycles` with `cycles = simulation_time * frequency`,
`'passed': cycles >= min_cycles`). -/
noncomputable def steady_state_result (simulation_time frequency min_cycles : ℝ) :
    CheckResult :=
  ⟨"Steady-State Convergence", simulation_time * frequency,
    decide (simulation_time * frequency ≥ min_cycles)⟩

/-- `WaveguideTests.test_steady_state`. -/
noncomputable def test_steady_state (s : WaveguideTests)
    (simulation_time frequency min_cycles : ℝ) : Bool × WaveguideTests :=
  append_result s (steady_state_result simulation_time frequency min_cycles)

/-- The result dictionary built by `test_resolution`
(`'measured': ppw` with `ppw = resolution * wavelength`,
`'passed': ppw >= min_ppw`). -/
noncomputable def resolution_result (resolution wavelength min_ppw : ℝ) :
    CheckResult :=
  ⟨"Resolution", resolution * wavelength,
    decide (resolution * wavelength ≥ min_ppw)⟩

/-- `WaveguideTests.test_resolution`. -/
noncomputable def test_resolution (s : WaveguideTests)
    (resolution wavelength min_ppw : ℝ) : Bool × WaveguideTests :=
  append_result s (resolution_result resolution wavelength min_ppw)

/-- One check invocation with its arguments: the five `test_*` methods
of `WaveguideTests`. -/
inductive CheckCall where
  | confinement (nx ny : ℕ) (field_data : ℕ → ℕ → ℝ) (waveguide_width : ℝ)
      (cell_size : MpVector3) (expected : ℝ)
  | singleMode (width wavelength n_core n_cladding : ℝ)
  | amplitude (nx ny : ℕ) (field_data : ℕ → ℕ → ℝ) (min_val max_val : ℝ)
  | steadyState (simulation_time frequency min_cycles : ℝ)
  | resolutionCheck (resolution wavelength min_ppw : ℝ)

/-- Dispatch one check invocation against the current instance state. -/
noncomputable def applyCheck (s : WaveguideTests) : CheckCall → Bool × WaveguideTests
  | .confinement nx ny field_data w cell expected =>
      test_confinement_factor s nx ny field_data w cell expected
  | .singleMode width wavelength n_core n_cladding =>
      test_single_mode_condition s width wavelength n_core n_cladding
  | .amplitude nx ny field_data min_val max_val =>
      test_field_amplitude s nx ny field_data min_val max_val
  | .steadyState simulation_time frequency min_cycles =>
      test_steady_state s simulation_time frequency min_cycles
  | .resolutionCheck resolution wavelength min_ppw =>
      test_resolution s resolution wavelength min_ppw

/-- The result dictionary a check invocation appends; it depends only
on the call's arguments, not on the instance state. -/
noncomputable def checkResultOf : CheckCall → CheckResult
  | .confinement nx ny field_data w cell expected =>
      confinement_result nx ny field_data w cell expected
  | .singleMode width wavelength n_core n_cladding =>
      single_mode_result width wavelength n_core n_cladding
  | .amplitude nx ny field_data min_val max_val =>
      amplitude_result nx ny field_data min_val max_val
  | .steadyState simulation_time frequency min_cycles =>
      steady_state_result simulation_time frequency min_cycles
  | .resolutionCheck resolution wavelength min_ppw =>
      resolution_result resolution wavelength min_ppw

/-- Run a finite sequence of check calls in order, threading the
instance state. -/
noncomputable def runChecks (s : WaveguideTests) (cs : List CheckCall) :
    WaveguideTests :=
  cs.foldl (fun st c => (applyCheck st c).2) s

/-- The two numbers printed by `print_report`'s summary line:
`passed_count = sum(r['passed'] for r in self.results)` and
`total_count = len(self.results)`. -/
def report_summary (s : WaveguideTests) : ℕ × ℕ :=
  (s.results.countP (fun r => r.passed), s.results.length)

theorem applyCheck_eq (s : WaveguideTests) (c : CheckCall) :
    applyCheck s c =
      ((checkResultOf c).passed,
        ⟨s.tolerance, s.results ++ [checkResultOf c]⟩) := by
  cases c <;> rfl

theorem runChecks_results : ∀ (cs : List CheckCall) (s : WaveguideTests),
    (runChecks s cs).results = s.results ++ cs.map checkResultOf := by
  intro cs
  induction cs with
  | nil =>
    intro s
    simp [runChecks]
  | cons c rest ih =>
    intro s
    have hstep : runChecks s (c :: rest) = runChecks ((applyCheck s c).2) rest := rfl
    rw [hstep, ih, applyCheck_eq]
    simp

/-- Claim C8: every successful check call appends exactly one
CheckResult whose `passed` field is the returned verdict; after any
finite sequence of calls the report list is the original list followed
by the per-call results in invocation order (so its length grows by
the number of calls and nothing is removed or mutated), and the
summary computed by `print_report` reports total equal to the list
length and passed-count equal to the number of `True` verdicts. -/
theorem validator_report_correct (s : WaveguideTests) (cs : List CheckCall) :
    (runChecks s cs).results = s.results ++ cs.map checkResultOf
    ∧ (runChecks s cs).results.length = s.results.length + cs.length
    ∧ (∀ t : WaveguideTests, ∀ c : CheckCall,
        applyCheck t c =
          ((checkResultOf c).passed,
            ⟨t.tolerance, t.results ++ [checkResultOf c]⟩))
    ∧ (report_summary (runChecks s cs)).2 = s.results.length + cs.length
    ∧ (report_summary (runChecks s cs)).1 =
        s.results.countP (fun r => r.passed) +
          (cs.map checkResultOf).countP (fun r => r.passed) := by
  have hres := runChecks_results cs s
  refine ⟨hres, ?_, fun t c => applyCheck_eq t c, ?_, ?_⟩
  · rw [hres]
    simp
  · rw [report_summary, hres]
    simp
  · rw [report_summary, hres]
    simp [List.countP_append]
